import Mathlib

/-!
Verification of the bpfman-catalog core against its natural-language
specification.

The Go sources are shallowly embedded in Lean.  Go `string` values are
modelled as `List Char` (all data handled by the claims under scrutiny is
ASCII, where Go's byte-level operations and character-level operations
agree).  Fallible Go functions returning `(T, error)` are modelled as
`Except Str T` (or as a pair with an explicit error component when the Go
code returns both).  External collaborators (the registry-inspection
capability, the render capability, the go-digest library, the system
clock) are universally-quantified oracle parameters.

Embedded code, by source file:
  - pkg/bundle/fbc.go: `generateCatalogEntryName`,
    `GenerateMultiBundleFBCTemplate` and the FBC template data model;
  - pkg/manifests/generator.go (label-context variant):
    `setupLabelContext`, `generateResourceName`, `getMergedLabels`, the
    manifest constructors and `GenerateFromCatalog`;
  - pkg/catalog (src/unnamed/part_003): `parseImageReference` and the
    short-digest derivation step of `ExtractMetadata`;
  - pkg/analysis (src/unnamed/part_007): `InspectImage`, `InspectImages`
    and `CalculateSummary`.
-/

/-- Go strings, modelled at character level. -/
abbrev Str := List Char

/-- The character list of a Lean string literal. -/
def str (s : String) : Str := s.data

/-! ### Go `strings` standard-library helpers

Each helper mirrors the Go standard-library function named in its doc
comment, specialised to the uses made by this repository. -/

/-- Go `strings.Split(s, sep)` for a one-character separator: the list of
substrings of `s` between occurrences of `c` (always non-empty). -/
def splitChar (c : Char) : Str → List Str
  | [] => [[]]
  | x :: xs =>
    if x = c then [] :: splitChar c xs
    else
      match splitChar c xs with
      | [] => [[x]]
      | h :: t => (x :: h) :: t

/-- Go `strings.Index(s, sub)` followed by the two slices `s[:idx]` and
`s[idx+1:]`, for a one-character `sub`: the part of `s` before the first
occurrence of `c`, and the part after it (`none` when `c` is absent). -/
def splitAtFirst (c : Char) : Str → Str × Option Str
  | [] => ([], none)
  | x :: xs =>
    if x = c then ([], some xs)
    else
      let r := splitAtFirst c xs
      (x :: r.1, r.2)

/-- Go `strings.TrimPrefix(s, pre)`. -/
def goTrimPre (pre s : Str) : Str :=
  if pre.isPrefixOf s then s.drop pre.length else s

/-- Go `strings.Contains(s, sub)` for a multi-character `sub`. -/
def goContainsSub (s sub : Str) : Bool :=
  match s with
  | [] => sub.isPrefixOf []
  | _ :: rest => sub.isPrefixOf s || goContainsSub rest sub

/-- Go `strings.ReplaceAll(s, old, new)` for a one-character `old`. -/
def replaceAllChar (c : Char) (r : Str) : Str → Str
  | [] => []
  | x :: xs => if x = c then r ++ replaceAllChar c r xs else x :: replaceAllChar c r xs

/-- Go `strings.Join(parts, sep)`. -/
def goJoin (sep : Str) (parts : List Str) : Str := List.intercalate sep parts

/-! ### pkg/bundle/fbc.go: data model -/

/-- `BundleMetadata` (fields used by the FBC builder).
Modelled from the spec: the Go struct definition is not among the
provided sources (only its uses in `fbc.go` and `main.go` are); the spec
lists fields `image`, `digest`, `tag`, `version`, `buildDate`
(ISO-8601), optional `prTitle`/`gitCommit`. -/
structure BundleMetadata where
  image : Str
  digest : Str
  tag : Str
  version : Str
  buildDate : Str
  prTitle : Str := []
  gitCommit : Str := []
  deriving Repr, DecidableEq, Inhabited

/-- `BundleInfo` from fbc.go: extracted bundle metadata. -/
structure BundleInfo where
  name : Str
  package : Str
  deriving Repr, DecidableEq, Inhabited

/-- `ChannelEntryItem` from fbc.go; the empty string plays the role of an
omitted `replaces` field (Go `omitempty`). -/
structure ChannelEntryItem where
  name : Str
  replaces : Str
  deriving Repr, DecidableEq, Inhabited

/-- `PackageEntry` from fbc.go. -/
structure PackageEntry where
  schema : Str
  name : Str
  defaultChannel : Str
  deriving Repr, DecidableEq, Inhabited

/-- `ChannelEntry` from fbc.go. -/
structure ChannelEntry where
  schema : Str
  package : Str
  name : Str
  entries : List ChannelEntryItem
  deriving Repr, DecidableEq, Inhabited

/-- `BundleEntry` from fbc.go. -/
structure BundleEntry where
  schema : Str
  image : Str
  name : Str
  deriving Repr, DecidableEq, Inhabited

/-- One element of the heterogeneous `Entries []interface` list of an
`FBCTemplate`. -/
inductive FBCEntry where
  | pkg : PackageEntry → FBCEntry
  | chan : ChannelEntry → FBCEntry
  | bundle : BundleEntry → FBCEntry
  deriving Repr, DecidableEq, Inhabited

/-- `FBCTemplate` from fbc.go. -/
structure FBCTemplate where
  schema : Str
  entries : List FBCEntry
  deriving Repr, DecidableEq, Inhabited

/-- All channel entry items of a template, in order (concatenated over
its `olm.channel` entries; the builder emits exactly one). -/
def templateChannelItems (t : FBCTemplate) : List ChannelEntryItem :=
  t.entries.foldr (fun e acc =>
    match e with
    | .chan c => c.entries ++ acc
    | _ => acc) []

/-- The names of all `olm.bundle` entries of a template, in order. -/
def templateBundleNames (t : FBCTemplate) : List Str :=
  t.entries.foldr (fun e acc =>
    match e with
    | .bundle b => b.name :: acc
    | _ => acc) []

/-! ### pkg/bundle/fbc.go: catalog entry naming -/

/-- `generateCatalogEntryName` from fbc.go, lines 227-251: builds
`bpfman-operator.v{VERSION}-g{SHORT_SHA}-{TIMESTAMP}` where the short SHA
is the tag truncated to 8 characters and the timestamp is derived from
`buildDate` only when that field has at least 16 characters. -/
def generateCatalogEntryName (meta : BundleMetadata) : Str :=
  let version := meta.version
  let shortSHA := if 8 < meta.tag.length then meta.tag.take 8 else meta.tag
  let timestamp :=
    if meta.buildDate ≠ [] then
      if 16 ≤ meta.buildDate.length then
        let datePart := meta.buildDate.take 10
        let timePart := (meta.buildDate.drop 11).take 5
        let timeFormatted := replaceAllChar ':' [] timePart
        datePart ++ str "T" ++ timeFormatted
      else []
    else []
  str "bpfman-operator.v" ++ version ++ str "-g" ++ shortSHA ++ str "-" ++ timestamp

/-! ### pkg/bundle/fbc.go: multi-bundle template builder

`extractBundleInfo` renders the bundle image through the external
render capability (network and subprocess I/O); it is passed in as an
oracle `ext : Str → Except Str BundleInfo`. -/

/-- The anonymous `struct ... info, image, meta` accumulated by
`GenerateMultiBundleFBCTemplate`'s first loop. -/
structure ExtractedBundle where
  info : BundleInfo
  image : Str
  meta : BundleMetadata
  deriving Repr, DecidableEq, Inhabited

/-- The first loop of `GenerateMultiBundleFBCTemplate` (fbc.go lines
159-169): extract bundle info for every bundle, failing on the first
extraction error. -/
def extractAll (ext : Str → Except Str BundleInfo) :
    List BundleMetadata → Except Str (List ExtractedBundle)
  | [] => .ok []
  | b :: rest =>
    match ext b.image with
    | .error e => .error (str "extracting bundle info for " ++ b.image ++ str ": " ++ e)
    | .ok info =>
      match extractAll ext rest with
      | .error e => .error e
      | .ok tl => .ok ({ info := info, image := b.image, meta := b } :: tl)

/-- Tail of the channel-entry loop of `GenerateMultiBundleFBCTemplate`
(fbc.go lines 176-191): every entry after the first gets a `replaces`
field naming the previous bundle's catalog entry. -/
def buildChannelEntriesFrom (prev : ExtractedBundle) :
    List ExtractedBundle → List ChannelEntryItem
  | [] => []
  | bi :: rest =>
    { name := generateCatalogEntryName bi.meta,
      replaces := generateCatalogEntryName prev.meta } :: buildChannelEntriesFrom bi rest

/-- The channel-entry loop of `GenerateMultiBundleFBCTemplate` (fbc.go
lines 176-191): the first entry carries no `replaces`. -/
def buildChannelEntries : List ExtractedBundle → List ChannelEntryItem
  | [] => []
  | bi :: rest =>
    { name := generateCatalogEntryName bi.meta, replaces := [] } ::
      buildChannelEntriesFrom bi rest

/-- `GenerateMultiBundleFBCTemplate` from fbc.go, lines 143-223,
parameterised by the bundle-info extraction oracle `ext` (the Go code's
`extractBundleInfo`, which performs registry I/O).  Note: the bundles are
processed in the order given; no sorting is performed. -/
def generateMultiBundleFBCTemplate (ext : Str → Except Str BundleInfo)
    (bundles : List BundleMetadata) (channel : Str) : Except Str FBCTemplate :=
  if bundles.isEmpty then .error (str "no bundles provided") else
    let chan := if channel = [] then str "preview" else channel
    match extractAll ext bundles with
    | .error e => .error e
    | .ok bundleInfos =>
      match bundleInfos with
      | [] => .error (str "no bundles provided")
      | bi0 :: _ =>
        let packageName := bi0.info.package
        let channelEntries := buildChannelEntries bundleInfos
        let entries : List FBCEntry :=
          .pkg { schema := str "olm.package", name := packageName, defaultChannel := chan } ::
          .chan { schema := str "olm.channel", package := packageName,
                  name := chan, entries := channelEntries } ::
          bundleInfos.map (fun bi =>
            .bundle { schema := str "olm.bundle", image := bi.image,
                      name := generateCatalogEntryName bi.meta })
        .ok { schema := str "olm.template.basic", entries := entries }

/-! ### Spec-side description of a replaces chain -/

/-- Spec-side formulation: the channel entry items obtained from a list
of catalog entry names by pairing each name with its predecessor (the
first name gets an empty `replaces`). -/
def chainOfNames (names : List Str) : List ChannelEntryItem :=
  (names.zip ([] :: names)).map (fun p => { name := p.1, replaces := p.2 })

/-- Spec-side formulation: starting from a previous entry name, each item
replaces exactly the item before it. -/
def isLinearChain : Str → List ChannelEntryItem → Prop
  | _, [] => True
  | prev, e :: rest => e.replaces = prev ∧ isLinearChain e.name rest

/-- Spec-side formulation of the strict linear chain shape: the first
item has no `replaces`, and every later item replaces its predecessor. -/
def chainShape (items : List ChannelEntryItem) : Prop :=
  match items with
  | [] => True
  | e0 :: rest => e0.replaces = [] ∧ isLinearChain e0.name rest

theorem buildChannelEntriesFrom_eq_zip (l : List ExtractedBundle) :
    ∀ prev, buildChannelEntriesFrom prev l =
      ((l.map (fun bi => generateCatalogEntryName bi.meta)).zip
        ((prev :: l).map (fun bi => generateCatalogEntryName bi.meta))).map
          (fun p => { name := p.1, replaces := p.2 }) := by
  induction l with
  | nil => intro prev; simp [buildChannelEntriesFrom]
  | cons bi rest ih =>
    intro prev
    simp only [buildChannelEntriesFrom, List.map_cons, List.zip_cons_cons, List.map]
    rw [ih bi]
    simp [List.zip]

theorem buildChannelEntries_eq_chainOfNames (l : List ExtractedBundle) :
    buildChannelEntries l =
      chainOfNames (l.map (fun bi => generateCatalogEntryName bi.meta)) := by
  cases l with
  | nil => simp [buildChannelEntries, chainOfNames]
  | cons bi rest =>
    simp only [buildChannelEntries, chainOfNames, List.map_cons, List.zip_cons_cons,
      List.map]
    rw [buildChannelEntriesFrom_eq_zip rest bi]
    simp [List.zip]

theorem extractAll_ok_metas (ext : Str → Except Str BundleInfo)
    (bundles : List BundleMetadata) (l : List ExtractedBundle)
    (h : extractAll ext bundles = .ok l) :
    l.map (fun bi => bi.meta) = bundles ∧ l.map (fun bi => bi.image) = bundles.map (fun b => b.image) := by
  induction bundles generalizing l with
  | nil =>
    simp only [extractAll] at h
    cases h
    simp
  | cons b rest ih =>
    simp only [extractAll] at h
    cases he : ext b.image with
    | error e => rw [he] at h; exact absurd h (by simp)
    | ok info =>
      rw [he] at h
      cases hr : extractAll ext rest with
      | error e => rw [hr] at h; exact absurd h (by simp)
      | ok tl =>
        rw [hr] at h
        cases h
        obtain ⟨h1, h2⟩ := ih tl hr
        simp [h1, h2]

theorem foldr_channelItems_on_bundles (l : List ExtractedBundle) :
    (l.map (fun bi => FBCEntry.bundle { schema := str "olm.bundle", image := bi.image, name := generateCatalogEntryName bi.meta })).foldr
      (fun e acc => match e with | .chan c => c.entries ++ acc | _ => acc) [] = [] := by
  induction l with
  | nil => simp
  | cons x xs ih => simpa using ih

theorem foldr_bundleNames_on_bundles (l : List ExtractedBundle) :
    (l.map (fun bi => FBCEntry.bundle { schema := str "olm.bundle", image := bi.image, name := generateCatalogEntryName bi.meta })).foldr
      (fun e acc => match e with | .bundle b => b.name :: acc | _ => acc) [] =
      l.map (fun bi => generateCatalogEntryName bi.meta) := by
  induction l with
  | nil => simp
  | cons x xs ih => simpa using ih

theorem generateMulti_ok (ext : Str → Except Str BundleInfo)
    (bundles : List BundleMetadata) (channel : Str) (t : FBCTemplate)
    (h : generateMultiBundleFBCTemplate ext bundles channel = .ok t) :
    ∃ l, extractAll ext bundles = .ok l ∧
      templateChannelItems t = buildChannelEntries l ∧
      templateBundleNames t = l.map (fun bi => generateCatalogEntryName bi.meta) := by
  simp only [generateMultiBundleFBCTemplate] at h
  by_cases hb : bundles.isEmpty
  · rw [if_pos hb] at h; exact absurd h (by simp)
  · rw [if_neg hb] at h
    cases hr : extractAll ext bundles with
    | error e => rw [hr] at h; exact absurd h (by simp)
    | ok l =>
      rw [hr] at h
      cases l with
      | nil => exact absurd h (by simp)
      | cons bi0 rest =>
        cases h
        refine ⟨bi0 :: rest, rfl, ?_, ?_⟩
        · simp only [templateChannelItems, List.foldr, List.map_cons]
          rw [foldr_channelItems_on_bundles]
          simp
        · simp only [templateBundleNames, List.foldr, List.map_cons]
          rw [foldr_bundleNames_on_bundles]

theorem chainOfNames_map_name (names : List Str) :
    (chainOfNames names).map (fun e => e.name) = names := by
  simp only [chainOfNames, List.map_map]
  have : ((fun e : ChannelEntryItem => e.name) ∘ fun p : Str × Str => ChannelEntryItem.mk p.1 p.2) = Prod.fst := rfl
  rw [this]
  exact List.map_fst_zip names ([] :: names) (by simp)

theorem chainOfNames_tail_isLinearChain (names : List Str) :
    ∀ prev, isLinearChain prev ((names.zip (prev :: names)).map (fun p => ChannelEntryItem.mk p.1 p.2)) := by
  induction names with
  | nil => intro prev; simp [isLinearChain]
  | cons n rest ih =>
    intro prev
    simp only [List.zip_cons_cons, List.map_cons, isLinearChain]
    exact ⟨by simp, ih n⟩

theorem chainOfNames_chainShape (names : List Str) :
    chainShape (chainOfNames names) := by
  cases names with
  | nil => simp [chainOfNames, chainShape]
  | cons n rest =>
    simp only [chainOfNames, List.zip_cons_cons, List.map_cons, chainShape]
    exact ⟨by simp, chainOfNames_tail_isLinearChain rest n⟩


theorem chainOfNames_tail_map_replaces (names : List Str) :
    ∀ prev, ((names.zip (prev :: names)).map (fun p => ChannelEntryItem.mk p.1 p.2)).map
        (fun e => e.replaces) = ((prev :: names).map id).dropLast := by
  induction names with
  | nil => intro prev; simp
  | cons n rest ih =>
    intro prev
    simp only [List.zip_cons_cons, List.map_cons, List.map_id]
    have := ih n
    simp only [List.map_id] at this
    rw [this]
    simp [List.dropLast_cons_of_ne_nil]

theorem chainOfNames_map_replaces (names : List Str) :
    (chainOfNames names).map (fun e => e.replaces) = ([] :: names).dropLast := by
  cases names with
  | nil => simp [chainOfNames]
  | cons n rest =>
    simp only [chainOfNames, List.zip_cons_cons, List.map_cons]
    have := chainOfNames_tail_map_replaces rest n
    simp only [List.map_id] at this
    rw [this]
    simp [List.dropLast_cons_of_ne_nil]

theorem generateCatalogEntryName_ne_nil (meta : BundleMetadata) :
    generateCatalogEntryName meta ≠ [] := by
  intro h
  simp only [generateCatalogEntryName, List.append_eq_nil, str] at h
  exact absurd h.1.1.1.1.1 (by decide)

/-! ### Concrete fixtures for the multi-bundle claims -/

/-- A bundle-info extraction oracle that always succeeds, returning the
spec's example package `demo-operator`. -/
def extDemo : Str → Except Str BundleInfo :=
  fun _ => .ok { name := str "demo-bundle", package := str "demo-operator" }

/-- Bundle A of the spec's end-to-end example (older build). -/
def metaA : BundleMetadata :=
  { image := str "quay.io/ns/bundle:v1.0-aaaaaaaa", digest := str "sha256:aaaa",
    tag := str "v1.0-aaaaaaaa", version := str "1.0",
    buildDate := str "2025-01-01T00:00:00Z" }

/-- Bundle B of the spec's end-to-end example (newer build). -/
def metaB : BundleMetadata :=
  { image := str "quay.io/ns/bundle:v1.1-bbbbbbbb", digest := str "sha256:bbbb",
    tag := str "v1.1-bbbbbbbb", version := str "1.1",
    buildDate := str "2025-02-01T00:00:00Z" }

/-- The channel entry names of a template-builder result (empty on
error). -/
def channelNamesOf (r : Except Str FBCTemplate) : List Str :=
  match r with
  | .ok t => (templateChannelItems t).map (fun e => e.name)
  | .error _ => []

/-- C1, counterexample: calling the multi-bundle builder with the bundles
newest-first (`[metaB, metaA]`, where `metaB` has the later `buildDate`)
yields channel entries in that same newest-first order, not re-sorted to
oldest-first by `buildDate` as the claim states: the first channel entry
is the one generated from `metaB`, and the two names differ, so the
output is not the claimed ascending-by-buildDate order
`[name of metaA, name of metaB]`. -/
theorem buildChain_no_sort_counterexample :
    channelNamesOf (generateMultiBundleFBCTemplate extDemo [metaB, metaA] (str "preview")) =
      [generateCatalogEntryName metaB, generateCatalogEntryName metaA] ∧
    [generateCatalogEntryName metaB, generateCatalogEntryName metaA] ≠
      [generateCatalogEntryName metaA, generateCatalogEntryName metaB] := by
  constructor
  · decide
  · decide

/-- C1 (corrected): `GenerateMultiBundleFBCTemplate` performs no internal
sort at all.  For every bundle list it accepts, the channel entries come
out in exactly the caller's input order, entry 0 without `replaces` and
entry i replacing entry i-1; the oldest-first replaces ordering therefore
obtains only when the caller already supplies the list oldest-first. -/
theorem buildChain_channel_follows_input_order (ext : Str → Except Str BundleInfo)
    (bundles : List BundleMetadata) (channel : Str) (t : FBCTemplate)
    (h : generateMultiBundleFBCTemplate ext bundles channel = .ok t) :
    templateChannelItems t = chainOfNames (bundles.map generateCatalogEntryName) ∧
    (templateChannelItems t).map (fun e => e.name) = bundles.map generateCatalogEntryName := by
  obtain ⟨l, hext, hchan, _⟩ := generateMulti_ok ext bundles channel t h
  obtain ⟨hmeta, _⟩ := extractAll_ok_metas ext bundles l hext
  have hnames : l.map (fun bi => generateCatalogEntryName bi.meta) =
      bundles.map generateCatalogEntryName := by
    rw [← hmeta, List.map_map]
    rfl
  constructor
  · rw [hchan, buildChannelEntries_eq_chainOfNames, hnames]
  · rw [hchan, buildChannelEntries_eq_chainOfNames, hnames, chainOfNames_map_name]

/-- The template produced for the newest-first two-bundle example. -/
def exampleTemplateBA : FBCTemplate :=
  match generateMultiBundleFBCTemplate extDemo [metaB, metaA] (str "preview") with
  | .ok t => t
  | .error _ => default

theorem buildChain_channel_follows_input_order_witness :
    templateChannelItems exampleTemplateBA =
      chainOfNames ([metaB, metaA].map generateCatalogEntryName) :=
  (buildChain_channel_follows_input_order extDemo [metaB, metaA] (str "preview")
    exampleTemplateBA rfl).1

theorem nodup_count_le_one_beq (l : List Str) (h : l.Nodup) (n : Str) :
    @List.count Str List.instBEq n l ≤ 1 := by
  induction l with
  | nil => simp
  | cons x xs ih =>
    rw [List.count_cons]
    rcases List.nodup_cons.mp h with ⟨hx, hxs⟩
    by_cases hnx : n = x
    · subst hnx
      have hz : List.count n xs = 0 := by
        rw [List.count_eq_zero]
        exact hx
      simp [hz]
    · have hle := ih hxs
      have hfalse : ((x == n : Bool)) = false := by
        simp only [beq_eq_false_iff_ne, ne_eq]
        exact fun hh => hnx hh.symm
      rw [hfalse]
      simpa using hle

/-- C3, counterexample: the claim's "no entry name is referenced by more
than one replaces field" fails on a bundle list containing the same
metadata three times (accepted by the builder): all three catalog entry
names coincide, so that name is referenced by the `replaces` fields of
both entry 1 and entry 2. -/
theorem buildChain_replaces_multiplicity_counterexample :
    (match generateMultiBundleFBCTemplate extDemo [metaA, metaA, metaA] (str "preview") with
     | .ok t =>
        some (((templateChannelItems t).filter
                  (fun e => e.replaces == generateCatalogEntryName metaA)).length,
              decide (generateCatalogEntryName metaA ∈
                  (templateChannelItems t).map (fun e => e.name)))
     | .error _ => none) = some (2, true) := by decide

/-- C3 (corrected): for every bundle list accepted by the builder —
duplicate-metadata lists included — the channel entries form a single
linear chain (entry 0 has no `replaces`, entry i replaces entry i-1's
name) and every channel entry name has a matching `olm.bundle` entry,
unconditionally; and provided the generated catalog entry names are
pairwise distinct — which fails for duplicated metadata, see the
counterexample — no name is referenced by more than one `replaces`
field. -/
theorem buildChain_linear_chain (ext : Str → Except Str BundleInfo)
    (bundles : List BundleMetadata) (channel : Str) (t : FBCTemplate)
    (h : generateMultiBundleFBCTemplate ext bundles channel = .ok t) :
    chainShape (templateChannelItems t) ∧
    (∀ e ∈ templateChannelItems t, e.name ∈ templateBundleNames t) ∧
    ((bundles.map generateCatalogEntryName).Nodup →
      ∀ n ∈ (templateChannelItems t).map (fun e => e.name),
        ((templateChannelItems t).filter (fun e => e.replaces == n)).length ≤ 1) := by
  obtain ⟨l, hext, hchan, hbn⟩ := generateMulti_ok ext bundles channel t h
  obtain ⟨hmeta, _⟩ := extractAll_ok_metas ext bundles l hext
  have hnames : l.map (fun bi => generateCatalogEntryName bi.meta) =
      bundles.map generateCatalogEntryName := by
    rw [← hmeta, List.map_map]
    rfl
  rw [hchan, buildChannelEntries_eq_chainOfNames, hnames]
  rw [hbn, hnames]
  set names := bundles.map generateCatalogEntryName with hdef
  refine ⟨chainOfNames_chainShape names, ?_, ?_⟩
  · intro e he
    have : e.name ∈ (chainOfNames names).map (fun x => x.name) := List.mem_map_of_mem _ he
    rwa [chainOfNames_map_name] at this
  · intro hnd n hn
    rw [chainOfNames_map_name] at hn
    have hne : n ≠ [] := by
      rw [hdef] at hn
      obtain ⟨b, _, hb⟩ := List.mem_map.mp hn
      exact hb ▸ generateCatalogEntryName_ne_nil b
    have hcount : ((chainOfNames names).filter (fun e => e.replaces == n)).length =
        @List.count Str List.instBEq n ((chainOfNames names).map (fun e => e.replaces)) := by
      rw [List.count, List.countP_map, List.countP_eq_length_filter]
      rfl
    rw [hcount, chainOfNames_map_replaces]
    rw [List.dropLast_cons_of_ne_nil (List.ne_nil_of_mem hn)]
    rw [List.count_cons_of_ne hne]
    calc List.count n names.dropLast ≤ List.count n names :=
          (List.dropLast_sublist names).count_le n
      _ ≤ 1 := nodup_count_le_one_beq names hnd n

/-- The template produced for the oldest-first two-bundle example. -/
def exampleTemplateAB : FBCTemplate :=
  match generateMultiBundleFBCTemplate extDemo [metaA, metaB] (str "preview") with
  | .ok t => t
  | .error _ => default

theorem buildChain_linear_chain_witness :
    chainShape (templateChannelItems exampleTemplateAB) ∧
    ([metaA, metaB].map generateCatalogEntryName).Nodup ∧
    (∀ n ∈ (templateChannelItems exampleTemplateAB).map (fun e => e.name),
      ((templateChannelItems exampleTemplateAB).filter
        (fun e => e.replaces == n)).length ≤ 1) :=
  ⟨(buildChain_linear_chain extDemo [metaA, metaB] (str "preview")
      exampleTemplateAB rfl).1,
   by decide,
   (buildChain_linear_chain extDemo [metaA, metaB] (str "preview")
      exampleTemplateAB rfl).2.2 (by decide)⟩

/-- The spec's example bundle record: package `demo-operator`, tag
`v1.0-aaaaaaaa`, buildDate `2025-01-01`. -/
def metaDemo : BundleMetadata :=
  { image := str "quay.io/demo/demo-operator-bundle:v1.0-aaaaaaaa", digest := [],
    tag := str "v1.0-aaaaaaaa", version := str "1.0", buildDate := str "2025-01-01" }

/-- C2, counterexample: on the claim's own example input the generated
name is `bpfman-operator.v1.0-gv1.0-aaa-`, not
`demo-operator.v1.0-gaaaaaaa-2025-01-01T0000`: the prefix is the
hard-coded literal `bpfman-operator` (the package name is ignored), the
short SHA is the first 8 characters of the whole tag (`v1.0-aaa`, not the
commit-hash portion), and the timestamp is empty because the build date
`2025-01-01` is shorter than the 16 characters the code requires. -/
theorem catalogEntryName_counterexample :
    generateCatalogEntryName metaDemo = str "bpfman-operator.v1.0-gv1.0-aaa-" ∧
    generateCatalogEntryName metaDemo ≠ str "demo-operator.v1.0-gaaaaaaa-2025-01-01T0000" := by
  decide

/-- C2 (corrected): for every bundle metadata record the generated
catalog entry name is `bpfman-operator.v<version>-g<s>-<ts>` — with the
hard-coded package prefix `bpfman-operator`, with `s` the first
`min(8, |tag|)` characters of the tag string, and with `ts` empty unless
the build date has at least 16 characters, in which case it is the
10-character date part, a `T`, and the 5-character time-of-day part with
its colon removed. -/
theorem catalogEntryName_shape (meta : BundleMetadata) :
    generateCatalogEntryName meta =
      str "bpfman-operator.v" ++ meta.version ++ str "-g" ++ meta.tag.take 8 ++ str "-" ++
        (if 16 ≤ meta.buildDate.length then
          meta.buildDate.take 10 ++ str "T" ++ replaceAllChar ':' [] ((meta.buildDate.drop 11).take 5)
        else []) := by
  have hsha : (if 8 < meta.tag.length then meta.tag.take 8 else meta.tag) = meta.tag.take 8 := by
    by_cases h : 8 < meta.tag.length
    · rw [if_pos h]
    · rw [if_neg h]
      exact (List.take_of_length_le (by omega)).symm
  have hts : (if meta.buildDate ≠ [] then
        (if 16 ≤ meta.buildDate.length then
          meta.buildDate.take 10 ++ str "T" ++ replaceAllChar ':' [] ((meta.buildDate.drop 11).take 5)
        else []) else []) =
      (if 16 ≤ meta.buildDate.length then
        meta.buildDate.take 10 ++ str "T" ++ replaceAllChar ':' [] ((meta.buildDate.drop 11).take 5)
      else []) := by
    by_cases hbd : meta.buildDate = []
    · rw [hbd]
      simp
    · rw [if_pos hbd]
  simp only [generateCatalogEntryName]
  rw [hsha, hts]

/-! ### pkg/manifests/generator.go (label-context variant)

Go maps over string keys are modelled as association lists with unique
keys; `m[k] = v` (insertion overwrites) is `mapSet`, `m[k]` lookup is
`mapGet`.  Go map iteration order is unspecified, so only lookups are
observable; the list order chosen here is insertion order. -/

/-- Labels, a Go `map[string]string`. -/
abbrev Labels := List (Str × Str)

/-- Go map assignment `m[k] = v`: any previous binding of `k` is
replaced. -/
def mapSet (m : Labels) (k v : Str) : Labels :=
  m.filter (fun p => !(p.1 == k)) ++ [(k, v)]

/-- Go map lookup `m[k]`. -/
def mapGet (m : Labels) (k : Str) : Option Str :=
  (m.find? (fun p => p.1 == k)).map (fun p => p.2)

/-- A Go `for k, v := range src ... dst[k] = v` copy loop. -/
def mapSetAll (m : Labels) (src : Labels) : Labels :=
  src.foldl (fun acc p => mapSet acc p.1 p.2) m

/-- The standard label set built by `setupLabelContext`
(generator.go lines 139-157): three fixed application labels, plus two
digest-keyed identification labels when a short digest is available. -/
def standardLabelsOf (shortDigest : Str) : Labels :=
  let m := mapSet (mapSet (mapSet []
    (str "app.kubernetes.io/name") (str "bpfman-operator"))
    (str "app.kubernetes.io/created-by") (str "bpfman-catalog-cli"))
    (str "app.kubernetes.io/version") (str "latest")
  if shortDigest ≠ [] then
    mapSet (mapSet m (str "bpfman-catalog-cli") shortDigest)
      (str "bpfman-catalog-cli/digest") shortDigest
  else m

/-- `getMergedLabels` (generator.go lines 168-187): standard labels
first, then custom labels, then the object-specific additional labels,
each later write overriding earlier bindings of the same key. -/
def getMergedLabels (std cust additional : Labels) : Labels :=
  mapSetAll (mapSetAll (mapSetAll [] std) cust) additional

/-- `generateResourceName` (generator.go lines 160-165). -/
def generateResourceName (shortDigest baseName : Str) : Str :=
  if shortDigest ≠ [] then baseName ++ str "-sha-" ++ shortDigest else baseName

/-- `ObjectMeta` of the generated manifests. -/
structure ObjectMeta where
  name : Str
  inNamespace : Str
  labels : Labels
  deriving Repr, DecidableEq, Inhabited

/-- `CatalogMetadata` from pkg/manifests (fields used by the
constructors). -/
structure CatalogMetadata where
  image : Str
  digest : Str
  shortDigest : Str
  catalogType : Str
  deriving Repr, DecidableEq, Inhabited

/-- A generated `Namespace` manifest. -/
structure KNamespace where
  apiVersion : Str
  kind : Str
  meta : ObjectMeta
  deriving Repr, DecidableEq, Inhabited

/-- `CatalogSourceSpec`. -/
structure CatalogSourceSpec where
  sourceType : Str
  image : Str
  displayName : Str
  publisher : Str
  deriving Repr, DecidableEq, Inhabited

/-- A generated `CatalogSource` manifest. -/
structure CatalogSource where
  apiVersion : Str
  kind : Str
  meta : ObjectMeta
  spec : CatalogSourceSpec
  deriving Repr, DecidableEq, Inhabited

/-- A generated `OperatorGroup` manifest (its spec is empty). -/
structure OperatorGroup where
  apiVersion : Str
  kind : Str
  meta : ObjectMeta
  deriving Repr, DecidableEq, Inhabited

/-- `SubscriptionSpec`. -/
structure SubscriptionSpec where
  channel : Str
  name : Str
  source : Str
  sourceNamespace : Str
  installPlanApproval : Str
  deriving Repr, DecidableEq, Inhabited

/-- A generated `Subscription` manifest. -/
structure Subscription where
  apiVersion : Str
  kind : Str
  meta : ObjectMeta
  spec : SubscriptionSpec
  deriving Repr, DecidableEq, Inhabited

/-- One `imageDigestMirrors` element of an `ImageDigestMirrorSet`. -/
structure ImageDigestMirror where
  source : Str
  mirrors : List Str
  deriving Repr, DecidableEq, Inhabited

/-- A generated `ImageDigestMirrorSet` manifest. -/
structure ImageDigestMirrorSet where
  apiVersion : Str
  kind : Str
  meta : ObjectMeta
  mirrors : List ImageDigestMirror
  deriving Repr, DecidableEq, Inhabited

/-- `ManifestSet`: the five objects produced by a successful generation
call. -/
structure ManifestSet where
  theNamespace : KNamespace
  idms : ImageDigestMirrorSet
  catalogSource : CatalogSource
  operatorGroup : OperatorGroup
  subscription : Subscription
  deriving Repr, DecidableEq, Inhabited

/-- `NewNamespace` (generator.go lines 190-206): base name without a
digest suffix, monitoring label merged on top of the standard set. -/
def newNamespace (std : Labels) (baseName : Str) : KNamespace :=
  let additionalLabels : Labels := [(str "openshift.io/cluster-monitoring", str "true")]
  { apiVersion := str "v1", kind := str "Namespace",
    meta := { name := baseName, inNamespace := [],
              labels := getMergedLabels std [] additionalLabels } }

/-- `NewCatalogSource` (generator.go lines 209-230); `now` stands for
the wall-clock timestamp the Go code formats into the display name. -/
def newCatalogSource (std : Labels) (suffix : Str) (meta : CatalogMetadata) (now : Str) : CatalogSource :=
  { apiVersion := str "operators.coreos.com/v1alpha1", kind := str "CatalogSource",
    meta := { name := generateResourceName suffix (str "bpfman-catalogsource"),
              inNamespace := str "openshift-marketplace",
              labels := getMergedLabels std [] [] },
    spec := { sourceType := str "grpc", image := meta.image,
              displayName := str "bpfman-catalog CLI (ephemeral-" ++ meta.shortDigest ++ str " - " ++ now ++ str ")",
              publisher := str "bpfman-catalog CLI (ephemeral-" ++ meta.shortDigest ++ str " - " ++ now ++ str ")" } }

/-- `NewOperatorGroup` (generator.go lines 233-246). -/
def newOperatorGroup (std : Labels) (suffix : Str) (inNamespace : Str) : OperatorGroup :=
  { apiVersion := str "operators.coreos.com/v1", kind := str "OperatorGroup",
    meta := { name := generateResourceName suffix (str "bpfman-operatorgroup"),
              inNamespace := inNamespace,
              labels := getMergedLabels std [] [] } }

/-- `NewSubscription` (generator.go lines 249-268). -/
def newSubscription (std : Labels) (suffix : Str) (inNamespace catalogSourceName channel : Str) : Subscription :=
  { apiVersion := str "operators.coreos.com/v1alpha1", kind := str "Subscription",
    meta := { name := generateResourceName suffix (str "bpfman-subscription"),
              inNamespace := inNamespace,
              labels := getMergedLabels std [] [] },
    spec := { channel := channel, name := str "bpfman-operator",
              source := catalogSourceName,
              sourceNamespace := str "openshift-marketplace",
              installPlanApproval := str "Automatic" } }

/-- `NewImageDigestMirrorSet` (generator.go lines 271-293). -/
def newImageDigestMirrorSet (std : Labels) (suffix : Str) : ImageDigestMirrorSet :=
  { apiVersion := str "config.openshift.io/v1", kind := str "ImageDigestMirrorSet",
    meta := { name := generateResourceName suffix (str "bpfman-idms"),
              inNamespace := [],
              labels := getMergedLabels std [] [] },
    mirrors := [{ source := str "registry.redhat.io/openshift4",
                  mirrors := [str "registry.stage.redhat.io/openshift4",
                              str "registry-proxy.engineering.redhat.com/rh-osbs/openshift4"] }] }

/-- `GeneratorConfig` from pkg/manifests. -/
structure GeneratorConfig where
  imageRef : Str
  targetNamespace : Str
  useDigestName : Bool
  deriving Repr, DecidableEq, Inhabited

/-- `NewGenerator` (generator.go lines 127-136): defaults the namespace
to `bpfman` and always forces digest naming. -/
def newGenerator (config : GeneratorConfig) : GeneratorConfig :=
  { config with
    targetNamespace := if config.targetNamespace = [] then str "bpfman" else config.targetNamespace,
    useDigestName := true }

/-- The catalog metadata returned by `catalog.ExtractMetadata` as
consumed by `GenerateFromCatalog`.  The `defaultChannel` and
`GetDigestRef` members belong to a revision of pkg/catalog that is not
among the provided sources; modelled from the spec: `CatalogMetadata
(post-rendering, pre-manifest)` carries `image` (digest-pinned reference
preferred), `digest`, `shortDigest`, `catalogType` and `defaultChannel`. -/
structure ExtractedCatalogMeta where
  digest : Str
  shortDigest : Str
  catalogType : Str
  defaultChannel : Str
  digestRef : Str
  deriving Repr, DecidableEq, Inhabited

/-- `GenerateFromCatalog` (generator.go lines 296-345), parameterised by
the metadata-extraction oracle (`catalog.ExtractMetadata`, which
performs registry I/O) and the formatted wall-clock timestamp `now`. -/
def generateFromCatalog (extract : Str → Except Str ExtractedCatalogMeta)
    (now : Str) (config : GeneratorConfig) : Except Str ManifestSet :=
  match extract config.imageRef with
  | .error e => .error (str "extracting catalog metadata: " ++ e)
  | .ok meta =>
    let digestSuffix := if config.useDigestName && !(meta.shortDigest == []) then meta.shortDigest else []
    let std := standardLabelsOf digestSuffix
    let catalogMeta : CatalogMetadata :=
      { image := meta.digestRef, digest := meta.digest,
        shortDigest := meta.shortDigest, catalogType := meta.catalogType }
    let ns := newNamespace std config.targetNamespace
    let idms := newImageDigestMirrorSet std digestSuffix
    let cs := newCatalogSource std digestSuffix catalogMeta now
    let og := newOperatorGroup std digestSuffix ns.meta.name
    if meta.defaultChannel = [] then
      .error (str "no default channel found in catalog metadata")
    else
      let sub := newSubscription std digestSuffix ns.meta.name cs.meta.name meta.defaultChannel
      .ok { theNamespace := ns, idms := idms, catalogSource := cs,
            operatorGroup := og, subscription := sub }

/-- C4 (confirmed): when the extracted catalog metadata has an empty
`defaultChannel`, `GenerateFromCatalog` fails outright with the
validation error and returns no partial `ManifestSet`; dually, any
successful generation carries the non-empty default channel into the
Subscription, so a Subscription with an empty or guessed channel is
never emitted. -/
theorem generateFromCatalog_empty_channel_fails
    (extract : Str → Except Str ExtractedCatalogMeta) (now : Str)
    (config : GeneratorConfig) (meta : ExtractedCatalogMeta)
    (hok : extract config.imageRef = .ok meta) :
    (meta.defaultChannel = [] →
      generateFromCatalog extract now config =
        .error (str "no default channel found in catalog metadata")) ∧
    (∀ ms, generateFromCatalog extract now config = .ok ms →
      ms.subscription.spec.channel = meta.defaultChannel ∧
      ms.subscription.spec.channel ≠ []) := by
  constructor
  · intro hch
    simp only [generateFromCatalog, hok]
    rw [if_pos hch]
  · intro ms hms
    simp only [generateFromCatalog, hok] at hms
    by_cases hch : meta.defaultChannel = []
    · rw [if_pos hch] at hms
      exact absurd hms (by simp)
    · rw [if_neg hch] at hms
      cases hms
      exact ⟨rfl, hch⟩

/-- A catalog-metadata extraction oracle whose result has no default
channel. -/
def extractNoChannel : Str → Except Str ExtractedCatalogMeta :=
  fun _ => .ok { digest := str "sha256:0123456789abcdef", shortDigest := str "01234567",
                 catalogType := str "catalog-ystream", defaultChannel := [],
                 digestRef := str "quay.io/ns/catalog@sha256:0123456789abcdef" }

/-- A generator configuration as produced by `NewGenerator`. -/
def configW : GeneratorConfig :=
  newGenerator { imageRef := str "quay.io/ns/catalog:latest", targetNamespace := [],
                 useDigestName := false }

theorem generateFromCatalog_empty_channel_fails_witness :
    generateFromCatalog extractNoChannel (str "2025-01-01 00:00:00") configW =
      .error (str "no default channel found in catalog metadata") :=
  (generateFromCatalog_empty_channel_fails extractNoChannel
    (str "2025-01-01 00:00:00") configW _ rfl).1 rfl

/-- C5 (confirmed): on every successful generation with a known short
digest, the CatalogSource is named `bpfman-catalogsource-sha-<s>`, the
Subscription's `spec.source` is exactly that CatalogSource name, and the
Subscription lives in the generated Namespace. -/
theorem generateFromCatalog_crossref_names
    (extract : Str → Except Str ExtractedCatalogMeta) (now : Str)
    (config : GeneratorConfig) (meta : ExtractedCatalogMeta) (ms : ManifestSet)
    (hok : extract config.imageRef = .ok meta)
    (huse : config.useDigestName = true)
    (hsd : meta.shortDigest ≠ [])
    (hms : generateFromCatalog extract now config = .ok ms) :
    ms.catalogSource.meta.name = str "bpfman-catalogsource" ++ str "-sha-" ++ meta.shortDigest ∧
    ms.subscription.spec.source = ms.catalogSource.meta.name ∧
    ms.subscription.meta.inNamespace = ms.theNamespace.meta.name := by
  have hb : (meta.shortDigest == ([] : Str)) = false := beq_eq_false_iff_ne.mpr hsd
  simp only [generateFromCatalog, hok] at hms
  by_cases hch : meta.defaultChannel = []
  · rw [if_pos hch] at hms
    exact absurd hms (by simp)
  · rw [if_neg hch] at hms
    cases hms
    refine ⟨?_, rfl, rfl⟩
    simp [newCatalogSource, generateResourceName, huse, hb, hsd]

/-- A catalog-metadata extraction oracle with the spec's example short
digest `abc12345` and a non-empty default channel. -/
def extractAbc : Str → Except Str ExtractedCatalogMeta :=
  fun _ => .ok { digest := str "sha256:abc12345ffff", shortDigest := str "abc12345",
                 catalogType := str "catalog-ystream", defaultChannel := str "stable",
                 digestRef := str "quay.io/ns/catalog@sha256:abc12345ffff" }

/-- The manifest set generated for the `abc12345` example. -/
def manifestSetW : ManifestSet :=
  match generateFromCatalog extractAbc (str "2025-01-01 00:00:00") configW with
  | .ok ms => ms
  | .error _ => default

theorem generateFromCatalog_crossref_names_witness :
    manifestSetW.catalogSource.meta.name =
      str "bpfman-catalogsource" ++ str "-sha-" ++ str "abc12345" ∧
    manifestSetW.subscription.spec.source = manifestSetW.catalogSource.meta.name :=
  ⟨(generateFromCatalog_crossref_names extractAbc (str "2025-01-01 00:00:00") configW _
      manifestSetW rfl rfl (by decide) rfl).1,
   (generateFromCatalog_crossref_names extractAbc (str "2025-01-01 00:00:00") configW _
      manifestSetW rfl rfl (by decide) rfl).2.1⟩

/-! ### Label-map lemmas -/

theorem mapGet_mapSet_self (m : Labels) (k v : Str) :
    mapGet (mapSet m k v) k = some v := by
  induction m with
  | nil => simp [mapSet, mapGet]
  | cons p ps ih =>
    simp only [mapSet, List.filter_cons]
    by_cases h : (p.1 == k) = true
    · simp only [h, Bool.not_true]
      rw [if_neg (by simp)]
      simpa [mapSet] using ih
    · have h' : (!(p.1 == k)) = true := by simp [h]
      rw [if_pos h']
      simp only [mapGet, List.cons_append]
      rw [@List.find?_cons_of_neg (Str × Str) (fun q => q.1 == k) p _ (by simp [h])]
      exact ih

theorem mapGet_mapSet_ne (m : Labels) (k v k' : Str) (hne : k' ≠ k) :
    mapGet (mapSet m k v) k' = mapGet m k' := by
  induction m with
  | nil =>
    simp only [mapSet, List.filter_nil, List.nil_append, mapGet]
    rw [@List.find?_cons_of_neg (Str × Str) (fun q => q.1 == k') (k, v) []
      (by simpa using fun hh : k = k' => hne hh.symm)]
  | cons p ps ih =>
    simp only [mapSet, List.filter_cons]
    by_cases h : (p.1 == k) = true
    · have hpk : p.1 = k := by simpa using h
      simp only [h, Bool.not_true]
      rw [if_neg (by simp)]
      have hstep : mapGet (List.filter (fun q => !(q.1 == k)) ps ++ [(k, v)]) k' = mapGet ps k' := by
        simpa [mapSet] using ih
      rw [hstep]
      simp only [mapGet]
      rw [@List.find?_cons_of_neg (Str × Str) (fun q => q.1 == k') p ps (by
        simp only [beq_iff_eq]
        rw [hpk]
        exact fun hh => hne hh.symm)]
    · have h' : (!(p.1 == k)) = true := by simp [h]
      rw [if_pos h']
      by_cases hk' : (p.1 == k') = true
      · simp only [mapGet, List.cons_append]
        rw [@List.find?_cons_of_pos (Str × Str) (fun q => q.1 == k') p _ hk',
          @List.find?_cons_of_pos (Str × Str) (fun q => q.1 == k') p ps hk']
      · simp only [mapGet, List.cons_append]
        rw [@List.find?_cons_of_neg (Str × Str) (fun q => q.1 == k') p _ (by simpa using hk'),
          @List.find?_cons_of_neg (Str × Str) (fun q => q.1 == k') p ps (by simpa using hk')]
        simpa [mapSet, mapGet] using ih

theorem mapGet_eq_none_of_not_mem_keys (m : Labels) (k : Str)
    (h : k ∉ m.map Prod.fst) : mapGet m k = none := by
  induction m with
  | nil => rfl
  | cons p ps ih =>
    simp only [List.map_cons, List.mem_cons, not_or] at h
    simp only [mapGet]
    rw [@List.find?_cons_of_neg (Str × Str) (fun q => q.1 == k) p ps (by
      simp only [beq_iff_eq]
      exact fun hh => h.1 hh.symm)]
    exact ih h.2

theorem mapGet_mem_keys (m : Labels) (k v : Str)
    (h : mapGet m k = some v) : k ∈ m.map Prod.fst := by
  induction m with
  | nil => simp [mapGet] at h
  | cons p ps ih =>
    by_cases hp : (p.1 == k) = true
    · simp [List.map_cons, (beq_iff_eq.mp hp).symm]
    · simp only [mapGet] at h
      rw [@List.find?_cons_of_neg (Str × Str) (fun q => q.1 == k) p ps hp] at h
      simp only [List.map_cons, List.mem_cons]
      exact Or.inr (ih h)

theorem mapSetAll_cons (m : Labels) (p : Str × Str) (ps : Labels) :
    mapSetAll m (p :: ps) = mapSetAll (mapSet m p.1 p.2) ps := rfl

theorem mapGet_mapSetAll_not_mem (add : Labels) :
    ∀ (m : Labels) (k : Str), (∀ p ∈ add, p.1 ≠ k) →
      mapGet (mapSetAll m add) k = mapGet m k := by
  induction add with
  | nil => intro m k _; rfl
  | cons p ps ih =>
    intro m k h
    rw [mapSetAll_cons]
    rw [ih (mapSet m p.1 p.2) k (fun q hq => h q (List.mem_cons_of_mem p hq))]
    exact mapGet_mapSet_ne m p.1 p.2 k (fun hh => h p (List.mem_cons_self p ps) hh.symm)

theorem mapGet_mapSetAll_nodup (src : Labels) :
    ∀ (m : Labels) (k : Str), (src.map Prod.fst).Nodup →
      mapGet (mapSetAll m src) k =
        match mapGet src k with
        | some v => some v
        | none => mapGet m k := by
  induction src with
  | nil => intro m k _; rfl
  | cons p ps ih =>
    intro m k hnd
    simp only [List.map_cons, List.nodup_cons] at hnd
    rw [mapSetAll_cons, ih (mapSet m p.1 p.2) k hnd.2]
    by_cases hp : p.1 = k
    · subst hp
      have hps : mapGet ps p.1 = none := mapGet_eq_none_of_not_mem_keys ps p.1 hnd.1
      have hg : mapGet (p :: ps) p.1 = some p.2 := by
        simp only [mapGet]
        rw [@List.find?_cons_of_pos (Str × Str) (fun q => q.1 == p.1) p ps (by simp)]
        rfl
      rw [hps, hg]
      exact mapGet_mapSet_self m p.1 p.2
    · have hfind : mapGet (p :: ps) k = mapGet ps k := by
        simp only [mapGet]
        rw [@List.find?_cons_of_neg (Str × Str) (fun q => q.1 == k) p ps (by simpa using hp)]
      rw [hfind]
      cases hg : mapGet ps k with
      | some v => rfl
      | none => exact mapGet_mapSet_ne m p.1 p.2 k (fun hh => hp hh.symm)

theorem uniqueKeys_mapSet (m : Labels) (k v : Str)
    (h : (m.map Prod.fst).Nodup) : ((mapSet m k v).map Prod.fst).Nodup := by
  rw [mapSet, List.map_append]
  rw [List.nodup_append]
  refine ⟨((List.filter_sublist m).map Prod.fst).nodup h, by simp, ?_⟩
  intro a ha
  simp only [List.map_cons, List.map_nil, List.mem_singleton]
  obtain ⟨p, hp, hpa⟩ := List.mem_map.mp ha
  have hkeep := List.of_mem_filter hp
  intro hak
  rw [← hpa] at hak
  simp [hak] at hkeep

theorem uniqueKeys_standardLabelsOf (s : Str) :
    ((standardLabelsOf s).map Prod.fst).Nodup := by
  rw [standardLabelsOf]
  by_cases h : s ≠ []
  · rw [if_pos h]
    apply uniqueKeys_mapSet
    apply uniqueKeys_mapSet
    decide
  · rw [if_neg h]
    decide

theorem standardLabelsOf_monitoring_none (s : Str) :
    mapGet (standardLabelsOf s) (str "openshift.io/cluster-monitoring") = none := by
  rw [standardLabelsOf]
  by_cases h : s ≠ []
  · rw [if_pos h]
    rw [mapGet_mapSet_ne _ _ _ _ (by decide), mapGet_mapSet_ne _ _ _ _ (by decide)]
    decide
  · rw [if_neg h]
    decide

theorem mapGet_getMergedLabels_of_std (s : Str) (add : Labels) (k v : Str)
    (hstd : mapGet (standardLabelsOf s) k = some v)
    (hadd : ∀ p ∈ add, p.1 ≠ k) :
    mapGet (getMergedLabels (standardLabelsOf s) [] add) k = some v := by
  rw [getMergedLabels]
  rw [mapGet_mapSetAll_not_mem add _ k hadd]
  rw [show mapSetAll (mapSetAll [] (standardLabelsOf s)) [] = mapSetAll [] (standardLabelsOf s) from rfl]
  rw [mapGet_mapSetAll_nodup (standardLabelsOf s) [] k (uniqueKeys_standardLabelsOf s)]
  rw [hstd]

/-- C6, counterexample: `getMergedLabels` merges additional labels with
later-write-wins semantics, so an additional-label map that reuses a
standard key overrides the standard value, contrary to the claim's
"for every additional-label map" clause: with the additional map binding
`app.kubernetes.io/name` to `overridden`, the merged map yields
`overridden` rather than the standard `bpfman-operator` at that key. -/
theorem getMergedLabels_override_counterexample :
    mapGet (getMergedLabels (standardLabelsOf (str "abc12345")) []
        [(str "app.kubernetes.io/name", str "overridden")]) (str "app.kubernetes.io/name") =
      some (str "overridden") ∧
    mapGet (standardLabelsOf (str "abc12345")) (str "app.kubernetes.io/name") =
      some (str "bpfman-operator") ∧
    str "overridden" ≠ str "bpfman-operator" := by
  refine ⟨by decide, by decide, by decide⟩

/-- C6 (corrected): `getMergedLabels` gives additional labels priority
over the standard set on key collisions (later writes win), so the
claim's universally-quantified no-override property fails (see the
counterexample).  However, the only object-specific additional label the
generator actually passes — the cluster-monitoring label on the
Namespace — is disjoint from the standard keys, so on every object of
every successful generation call the standard label set computed for
that call survives intact: every standard-label binding is present
unchanged in every generated object's label map. -/
theorem generateFromCatalog_standard_labels
    (extract : Str → Except Str ExtractedCatalogMeta) (now : Str)
    (config : GeneratorConfig) (meta : ExtractedCatalogMeta) (ms : ManifestSet)
    (hok : extract config.imageRef = .ok meta)
    (hms : generateFromCatalog extract now config = .ok ms) :
    ∀ k v,
      mapGet (standardLabelsOf (if config.useDigestName && !(meta.shortDigest == []) then meta.shortDigest else [])) k = some v →
      mapGet ms.theNamespace.meta.labels k = some v ∧
      mapGet ms.idms.meta.labels k = some v ∧
      mapGet ms.catalogSource.meta.labels k = some v ∧
      mapGet ms.operatorGroup.meta.labels k = some v ∧
      mapGet ms.subscription.meta.labels k = some v := by
  intro k v hstd
  set s := (if config.useDigestName && !(meta.shortDigest == []) then meta.shortDigest else []) with hs
  have hkm : k ≠ str "openshift.io/cluster-monitoring" := by
    intro hk
    rw [hk] at hstd
    rw [standardLabelsOf_monitoring_none s] at hstd
    exact Option.noConfusion hstd
  simp only [generateFromCatalog, hok] at hms
  by_cases hch : meta.defaultChannel = []
  · rw [if_pos hch] at hms
    exact absurd hms (by simp)
  · rw [if_neg hch] at hms
    cases hms
    refine ⟨?_, ?_, ?_, ?_, ?_⟩
    · exact mapGet_getMergedLabels_of_std s _ k v hstd
        (by
          intro p hp
          simp only [List.mem_singleton] at hp
          rw [hp]
          exact fun hh => hkm hh.symm)
    · exact mapGet_getMergedLabels_of_std s [] k v hstd (by simp)
    · exact mapGet_getMergedLabels_of_std s [] k v hstd (by simp)
    · exact mapGet_getMergedLabels_of_std s [] k v hstd (by simp)
    · exact mapGet_getMergedLabels_of_std s [] k v hstd (by simp)

theorem generateFromCatalog_standard_labels_witness :
    mapGet manifestSetW.theNamespace.meta.labels (str "app.kubernetes.io/name") =
      some (str "bpfman-operator") :=
  (generateFromCatalog_standard_labels extractAbc (str "2025-01-01 00:00:00") configW _
    manifestSetW rfl rfl (str "app.kubernetes.io/name") (str "bpfman-operator")
    (by decide)).1

/-! ### pkg/catalog (src/unnamed/part_003): image reference parsing

`digest.Parse` belongs to the external go-digest library; it is passed
in as an oracle `digestParse : Str → Option Str` returning the validated
digest string, `none` on a parse failure (in which case the Go code
leaves `meta.Digest` empty). -/

/-- The reference fields populated by `parseImageReference`. -/
structure ParsedRef where
  registry : Str
  refNamespace : Str
  repository : Str
  tag : Str
  digest : Str
  deriving Repr, DecidableEq, Inhabited

/-- The path-splitting tail of `parseImageReference` from pkg/catalog
(part_003 lines 404-425): splits the remaining path on `/` (fewer than
two segments is an error), treats the first segment as the registry host
exactly when it contains a dot or a colon (else the registry defaults to
`docker.io`), and takes the last segment as repository, joining the rest
as namespace.  `parseImageReference` (part_003 lines 374-426) strips a
`docker://` scheme, splits off an `@digest` suffix at the first `@`,
takes a tag only when splitting the rest on `:` yields exactly two
parts, and hands over to this stage. -/
def parsePathStage (dig baseRef2 tag imageRef : Str) : Except Str ParsedRef :=
  let pathParts := splitChar '/' baseRef2
  if pathParts.length < 2 then
    .error (str "invalid image reference format: " ++ imageRef)
  else
    let hostLike :=
      match pathParts with
      | s0 :: _ => s0.contains '.' || s0.contains ':'
      | [] => false
    let registry := if hostLike then pathParts.headD [] else str "docker.io"
    let pathRest := if hostLike then pathParts.tail else pathParts
    let repository := pathRest.getLastD []
    let refNamespace :=
      if 1 < pathRest.length then goJoin (str "/") pathRest.dropLast else []
    .ok { registry := registry, refNamespace := refNamespace,
          repository := repository, tag := tag, digest := dig }

/-- The digest/tag splitting stages of `parseImageReference`, feeding
`parsePathStage`. -/
def parseImageReference (digestParse : Str → Option Str) (imageRef0 : Str) :
    Except Str ParsedRef :=
  let imageRef := goTrimPre (str "docker://") imageRef0
  let atSplit := splitAtFirst '@' imageRef
  let baseRef1 := atSplit.1
  let dig : Str :=
    match atSplit.2 with
    | none => []
    | some digestStr =>
      match digestParse digestStr with
      | some d => d
      | none => []
  let tagSplit :=
    match splitChar ':' baseRef1 with
    | [a, b] => (a, b)
    | _ => (baseRef1, ([] : Str))
  parsePathStage dig tagSplit.1 tagSplit.2 imageRef

/-- The short-digest derivation step of `ExtractMetadata` (part_003
lines 352-358): the first 8 characters after `sha256:` when the digest
string has that prefix and at least 15 characters, the empty string
otherwise. -/
def deriveShortDigest (digestStr : Str) : Str :=
  if (str "sha256:").isPrefixOf digestStr ∧ 15 ≤ digestStr.length then
    (digestStr.drop 7).take 8
  else []

/-- A digest string accepted by the go-digest library's `digest.Parse`
with the `sha256` algorithm (modelled from that library's validation
rules): the `sha256:` prefix followed by exactly 64 lowercase
hexadecimal characters. -/
def validSha256Digest (d : Str) : Prop :=
  (str "sha256:") <+: d ∧ (d.drop 7).length = 64 ∧
    ∀ c ∈ d.drop 7, ('0' ≤ c ∧ c ≤ '9') ∨ ('a' ≤ c ∧ c ≤ 'f')

instance (d : Str) : Decidable (validSha256Digest d) := by
  unfold validSha256Digest
  infer_instance

/-! ### splitChar / splitAtFirst lemmas -/

theorem splitChar_ne_nil (c : Char) (s : Str) : splitChar c s ≠ [] := by
  induction s with
  | nil => simp [splitChar]
  | cons x xs ih =>
    simp only [splitChar]
    split
    · simp
    · split
      · simp
      · simp

theorem splitChar_length (c : Char) (s : Str) :
    (splitChar c s).length = List.count c s + 1 := by
  induction s with
  | nil => simp [splitChar]
  | cons x xs ih =>
    simp only [splitChar]
    by_cases h : x = c
    · subst h
      simp [List.count_cons_self, ih]
    · rw [if_neg h]
      rcases hs : splitChar c xs with _ | ⟨hd, tl⟩
      · exact absurd hs (splitChar_ne_nil c xs)
      · simp only [List.length_cons]
        rw [hs] at ih
        simp only [List.length_cons] at ih
        rw [List.count_cons_of_ne (fun hh => h hh.symm)]
        omega

theorem splitChar_count_zero (c : Char) (s : Str) (h : List.count c s = 0) :
    splitChar c s = [s] := by
  induction s with
  | nil => rfl
  | cons x xs ih =>
    have hx : x ≠ c := by
      intro he
      subst he
      simp [List.count_cons_self] at h
    have hxs : List.count c xs = 0 := by
      rw [List.count_cons_of_ne (fun hh => hx hh.symm)] at h
      exact h
    simp only [splitChar, if_neg hx, ih hxs]

theorem splitChar_count_one (c : Char) (s : Str) (h : List.count c s = 1) :
    splitChar c s =
      [s.takeWhile (fun x => !(x == c)), (s.dropWhile (fun x => !(x == c))).drop 1] := by
  induction s with
  | nil => simp at h
  | cons x xs ih =>
    by_cases hx : x = c
    · subst hx
      have hxs : List.count x xs = 0 := by
        simp only [List.count_cons_self] at h
        omega
      simp only [splitChar, if_pos rfl, splitChar_count_zero x xs hxs]
      simp [List.takeWhile, List.dropWhile]
    · have hxs : List.count c xs = 1 := by
        rw [List.count_cons_of_ne (fun hh => hx hh.symm)] at h
        exact h
      have hne : (!(x == c)) = true := by simp [hx]
      simp only [splitChar, if_neg hx, ih hxs]
      simp [List.takeWhile, List.dropWhile, hne]

theorem splitAtFirst_fst (c : Char) (s : Str) :
    (splitAtFirst c s).1 = s.takeWhile (fun x => !(x == c)) := by
  induction s with
  | nil => rfl
  | cons x xs ih =>
    simp only [splitAtFirst]
    by_cases h : x = c
    · subst h
      simp [List.takeWhile]
    · have hne : (!(x == c)) = true := by simp [h]
      simp only [if_neg h]
      simp [List.takeWhile, hne, ih]

/-! ### Spec-side reference decomposition (amended claim C7) -/

/-- The reference with any `docker://` scheme removed. -/
def refAfterScheme (ref : Str) : Str := goTrimPre (str "docker://") ref

/-- The reference up to (not including) the first `@`. -/
def refPreDigest (ref : Str) : Str :=
  (refAfterScheme ref).takeWhile (fun x => !(x == '@'))

/-- The path portion: the tag is split off exactly when the pre-digest
part contains a single colon. -/
def refBase (ref : Str) : Str :=
  if List.count ':' (refPreDigest ref) = 1 then
    (refPreDigest ref).takeWhile (fun x => !(x == ':'))
  else refPreDigest ref

/-- The tag portion: non-empty only when the pre-digest part contains a
single colon, in which case it is everything after that colon. -/
def refTag (ref : Str) : Str :=
  if List.count ':' (refPreDigest ref) = 1 then
    ((refPreDigest ref).dropWhile (fun x => !(x == ':'))).drop 1
  else []

/-- The slash-separated path segments of the reference. -/
def refSegs (ref : Str) : List Str := splitChar '/' (refBase ref)

theorem parsePathStage_characterisation (dig base tag imageRef : Str) :
    match parsePathStage dig base tag imageRef with
    | .error _ => (splitChar '/' base).length < 2
    | .ok p =>
        2 ≤ (splitChar '/' base).length ∧ p.tag = tag ∧ p.digest = dig ∧
        (match splitChar '/' base with
         | [] => False
         | s0 :: rest =>
           if s0.contains '.' || s0.contains ':' then
             p.registry = s0 ∧ p.repository = rest.getLastD [] ∧
             p.refNamespace = (if 1 < rest.length then goJoin (str "/") rest.dropLast else [])
           else
             p.registry = str "docker.io" ∧ p.repository = (s0 :: rest).getLastD [] ∧
             p.refNamespace = goJoin (str "/") ((s0 :: rest).dropLast)) := by
  rcases hsegs : splitChar '/' base with _ | ⟨s0, rest⟩
  · exact absurd hsegs (splitChar_ne_nil '/' base)
  · by_cases hlen : (s0 :: rest).length < 2
    · simp only [parsePathStage, hsegs, if_pos hlen]
      exact hlen
    · simp only [parsePathStage, hsegs, if_neg hlen]
      have h2 : 2 ≤ (s0 :: rest).length := Nat.le_of_not_lt hlen
      have h1 : 1 < (s0 :: rest).length := by omega
      refine ⟨h2, trivial, trivial, ?_⟩
      by_cases hP : ('.' ∈ s0 ∨ ':' ∈ s0)
      · simp [hP]
      · simp [hP, h1]
        intro hrest
        rw [hrest] at h2
        simp at h2

/-- The digest component extracted by `parseImageReference` (everything
after the first `@`, run through the external digest parser). -/
def refDigestOf (dp : Str → Option Str) (ref : Str) : Str :=
  match (splitAtFirst '@' (refAfterScheme ref)).2 with
  | none => []
  | some digestStr =>
    match dp digestStr with
    | some d => d
    | none => []

theorem parseImageReference_eq_stage (dp : Str → Option Str) (ref : Str) :
    parseImageReference dp ref =
      parsePathStage (refDigestOf dp ref) (refBase ref) (refTag ref) (refAfterScheme ref) := by
  have hb1 : (splitAtFirst '@' (goTrimPre (str "docker://") ref)).1 = refPreDigest ref := by
    rw [splitAtFirst_fst]
    rfl
  simp only [parseImageReference, hb1]
  by_cases hc : List.count ':' (refPreDigest ref) = 1
  · rw [splitChar_count_one ':' _ hc]
    rw [refBase, refTag, if_pos hc, if_pos hc]
    rfl
  · have hlen2 : (splitChar ':' (refPreDigest ref)).length ≠ 2 := by
      rw [splitChar_length]
      omega
    rw [refBase, refTag, if_neg hc, if_neg hc]
    rcases hs : splitChar ':' (refPreDigest ref) with _ | ⟨a, _ | ⟨b, _ | ⟨c3, t⟩⟩⟩
    · exact absurd hs (splitChar_ne_nil ':' (refPreDigest ref))
    · rfl
    · rw [hs] at hlen2
      simp at hlen2
    · rfl

/-- C7 (corrected): `parseImageReference` splits on the first `@`, then
takes a tag exactly when the remaining string contains a single `:`
(not "the last colon" in general — with two or more colons no tag is
taken), then splits the path on `/`; the first path segment is treated
as a registry host exactly when it contains a dot or a colon — a bare
`localhost` segment is NOT special-cased (see the counterexample): it is
folded into the namespace with the registry defaulting to `docker.io` —
and parsing fails exactly when fewer than two path segments remain. -/
theorem parseImageReference_characterisation (dp : Str → Option Str) (ref : Str) :
    match parseImageReference dp ref with
    | .error _ => (refSegs ref).length < 2
    | .ok p =>
        2 ≤ (refSegs ref).length ∧ p.tag = refTag ref ∧
        (match refSegs ref with
         | [] => False
         | s0 :: rest =>
           if s0.contains '.' || s0.contains ':' then
             p.registry = s0 ∧ p.repository = rest.getLastD [] ∧
             p.refNamespace = (if 1 < rest.length then goJoin (str "/") rest.dropLast else [])
           else
             p.registry = str "docker.io" ∧ p.repository = (s0 :: rest).getLastD [] ∧
             p.refNamespace = goJoin (str "/") ((s0 :: rest).dropLast)) := by
  rw [parseImageReference_eq_stage]
  have hchar := parsePathStage_characterisation (refDigestOf dp ref) (refBase ref)
    (refTag ref) (refAfterScheme ref)
  cases hp : parsePathStage (refDigestOf dp ref) (refBase ref) (refTag ref) (refAfterScheme ref) with
  | error e =>
    rw [hp] at hchar
    exact hchar
  | ok p =>
    rw [hp] at hchar
    obtain ⟨ha, hb, _, hd⟩ := hchar
    exact ⟨ha, hb, hd⟩

/-- C7, counterexample: on `localhost/ns/repo` the claim requires the
first segment `localhost` to be treated as the registry host; the code
checks only for a dot or a colon, so the registry defaults to
`docker.io` and `localhost` is folded into the namespace. -/
theorem parseImageReference_localhost_counterexample :
    parseImageReference (fun _ => none) (str "localhost/ns/repo") =
      .ok { registry := str "docker.io", refNamespace := str "localhost/ns",
            repository := str "repo", tag := [], digest := [] } ∧
    str "docker.io" ≠ str "localhost" := by
  constructor
  · rfl
  · decide

/-- C8 (confirmed): for a digest string accepted by the go-digest
parser with the `sha256` algorithm, the derived short digest is exactly
the first 8 (lowercase hexadecimal) characters of the hex part — never
truncated or padded — and for any string without the `sha256:` prefix or
shorter than 15 characters (non-sha256 algorithm, missing digest,
too-short digest) it is the empty string; the derivation itself never
fails. -/
theorem deriveShortDigest_spec (d : Str) :
    (validSha256Digest d →
      deriveShortDigest d = (d.drop 7).take 8 ∧ (deriveShortDigest d).length = 8 ∧
        ∀ c ∈ deriveShortDigest d, ('0' ≤ c ∧ c ≤ '9') ∨ ('a' ≤ c ∧ c ≤ 'f')) ∧
    (¬((str "sha256:") <+: d ∧ 15 ≤ d.length) → deriveShortDigest d = []) := by
  constructor
  · rintro ⟨hpre, hlen, hhex⟩
    have hpb : (str "sha256:").isPrefixOf d = true := List.isPrefixOf_iff_prefix.mpr hpre
    have hdrop : (List.drop 7 d).length = d.length - 7 := List.length_drop 7 d
    have h7 : (str "sha256:").length ≤ d.length := List.IsPrefix.length_le hpre
    have hdlen : 15 ≤ d.length := by
      have h7' : (7 : ℕ) ≤ d.length := by simpa using h7
      omega
    rw [deriveShortDigest, if_pos ⟨hpb, hdlen⟩]
    refine ⟨rfl, ?_, ?_⟩
    · rw [List.length_take, hlen]
      decide
    · intro c hc
      exact hhex c (List.take_subset 8 _ hc)
  · intro h
    rw [deriveShortDigest]
    rw [if_neg (fun hcond => h ⟨List.isPrefixOf_iff_prefix.mp hcond.1, hcond.2⟩)]

/-- A well-formed sha256 digest string (64 lowercase hex characters). -/
def dGood : Str :=
  str "sha256:aaaaaaaabbbbbbbbccccccccddddddddaaaaaaaabbbbbbbbccccccccdddddddd"

/-- A digest string with a non-sha256 algorithm. -/
def dBad : Str := str "sha512:0000"

theorem deriveShortDigest_spec_witness :
    deriveShortDigest dGood = (dGood.drop 7).take 8 ∧
    (deriveShortDigest dGood).length = 8 ∧
    deriveShortDigest dBad = [] :=
  ⟨((deriveShortDigest_spec dGood).1 (by decide)).1,
   ((deriveShortDigest_spec dGood).1 (by decide)).2.1,
   (deriveShortDigest_spec dBad).2 (by decide)⟩

/-! ### pkg/analysis (src/unnamed/part_007): image inspection

The `ImageRef` type, `ParseImageRef` and `ConvertToTenantWorkspace` are
declared in a pkg/analysis source file that is not among the provided
sources; only the fields `InspectImage` reads (`Registry`, `Repo`) are
modelled, and the two functions are oracle parameters.  The registry
probe `inspectImageRef` (network I/O through containers/image) composed
with the pure label conversion `convertToImageInfo` is the oracle
`inspect`. -/

/-- The image-reference fields read by `InspectImage`. -/
structure ImageRef where
  registry : Str
  repo : Str
  deriving Repr, DecidableEq, Inhabited

/-- Registry classification of an inspected image.  Modelled from the
spec (`registryClass` with three values) and the constants used in
part_007: `DownstreamRegistry` (the spec's Primary), `TenantWorkspace`,
`NotAccessible`. -/
inductive RegistryType where
  | downstreamRegistry : RegistryType
  | tenantWorkspace : RegistryType
  | notAccessible : RegistryType
  deriving Repr, DecidableEq, Inhabited

/-- Image metadata collected from labels by `convertToImageInfo`
(fields per the spec: creation time, version, VCS commit/URL). -/
structure ImageInfo where
  created : Str
  version : Str
  gitCommit : Str
  gitURL : Str
  prTitle : Str
  deriving Repr, DecidableEq, Inhabited

/-- One per-image classification result. -/
structure ImageResult where
  reference : Str
  accessible : Bool
  registry : RegistryType
  error : Str
  info : Option ImageInfo
  deriving Repr, DecidableEq, Inhabited

/-- `InspectImage` from part_007 lines 13-63, parameterised by the
reference parser, the tenant-workspace conversion and the registry
probe.  Mirrors the Go signature `(*ImageResult, error)` as a pair of
the result and an optional error. -/
def inspectImage (parse : Str → Except Str ImageRef)
    (convert : ImageRef → Except Str ImageRef)
    (inspect : ImageRef → Except Str ImageInfo)
    (imageRefStr : Str) : ImageResult × Option Str :=
  match parse imageRefStr with
  | .error e =>
    ({ reference := imageRefStr, accessible := false, registry := .notAccessible,
       error := str "invalid image reference: " ++ e, info := none }, none)
  | .ok imageRef =>
    match inspect imageRef with
    | .ok info =>
      let rtype :=
        if imageRef.registry = str "registry.redhat.io" then
          RegistryType.downstreamRegistry
        else if imageRef.registry = str "quay.io" &&
            goContainsSub imageRef.repo (str "redhat-user-workloads") then
          RegistryType.tenantWorkspace
        else RegistryType.downstreamRegistry
      ({ reference := imageRefStr, accessible := true, registry := rtype,
         error := [], info := some info }, none)
    | .error _ =>
      match convert imageRef with
      | .error _ =>
        ({ reference := imageRefStr, accessible := false, registry := .notAccessible,
           error := str "not accessible in any registry", info := none }, none)
      | .ok tenantRef =>
        match inspect tenantRef with
        | .ok info =>
          ({ reference := imageRefStr, accessible := true, registry := .tenantWorkspace,
             error := [], info := some info }, none)
        | .error _ =>
          ({ reference := imageRefStr, accessible := false, registry := .notAccessible,
             error := str "not accessible in downstream or tenant registry", info := none }, none)

/-- `InspectImages` from part_007 lines 123-141: one result per input
reference, falling back to a synthetic `NotAccessible` result if
`InspectImage` were ever to return an error. -/
def inspectImages (parse : Str → Except Str ImageRef)
    (convert : ImageRef → Except Str ImageRef)
    (inspect : ImageRef → Except Str ImageInfo)
    (imageRefs : List Str) : List ImageResult × Option Str :=
  (imageRefs.map (fun ref =>
    match inspectImage parse convert inspect ref with
    | (r, none) => r
    | (_, some e) =>
      { reference := ref, accessible := false, registry := .notAccessible,
        error := str "inspection failed: " ++ e, info := none }), none)

/-- `Summary` from pkg/analysis (struct declared in a file not among
the provided sources; fields per its uses in `CalculateSummary`). -/
structure Summary where
  totalImages : Nat
  accessibleImages : Nat
  inaccessibleImages : Nat
  downstreamImages : Nat
  tenantImages : Nat
  deriving Repr, DecidableEq, Inhabited

/-- The loop body of `CalculateSummary` (part_007 lines 149-161). -/
def summStep (s : Summary) (r : ImageResult) : Summary :=
  if r.accessible then
    let s := { s with accessibleImages := s.accessibleImages + 1 }
    match r.registry with
    | .downstreamRegistry => { s with downstreamImages := s.downstreamImages + 1 }
    | .tenantWorkspace => { s with tenantImages := s.tenantImages + 1 }
    | .notAccessible => s
  else { s with inaccessibleImages := s.inaccessibleImages + 1 }

/-- `CalculateSummary` from part_007 lines 144-164. -/
def calculateSummary (results : List ImageResult) : Summary :=
  results.foldl summStep
    { totalImages := results.length, accessibleImages := 0,
      inaccessibleImages := 0, downstreamImages := 0, tenantImages := 0 }

theorem inspectImage_no_error (parse : Str → Except Str ImageRef)
    (convert : ImageRef → Except Str ImageRef)
    (inspect : ImageRef → Except Str ImageInfo) (ref : Str) :
    (inspectImage parse convert inspect ref).2 = none := by
  cases hp : parse ref with
  | error e => simp [inspectImage, hp]
  | ok r =>
    cases hi : inspect r with
    | ok info => simp [inspectImage, hp, hi]
    | error e1 =>
      cases hc : convert r with
      | error e2 => simp [inspectImage, hp, hi, hc]
      | ok t =>
        cases hi2 : inspect t with
        | ok info => simp [inspectImage, hp, hi, hc, hi2]
        | error e3 => simp [inspectImage, hp, hi, hc, hi2]

/-- C9 (confirmed): per-image failures are isolated.  `InspectImage`
never returns an error (every failure is folded into the returned
classification); a parse failure yields a `NotAccessible` result whose
error string carries the parse diagnostic; a registry failure on both
tiers (primary probe fails, and the tenant-workspace conversion fails or
the tenant probe fails) yields a `NotAccessible` result with a
descriptive error; and the batch result of `InspectImages` is exactly
the per-reference map of `InspectImage`, so each input reference
produces exactly one result, unaffected by its siblings. -/
theorem inspectImages_isolated_failures (parse : Str → Except Str ImageRef)
    (convert : ImageRef → Except Str ImageRef)
    (inspect : ImageRef → Except Str ImageInfo) :
    (∀ ref, (inspectImage parse convert inspect ref).2 = none) ∧
    (∀ refs, (inspectImages parse convert inspect refs).1 =
        refs.map (fun ref => (inspectImage parse convert inspect ref).1)) ∧
    (∀ ref e, parse ref = .error e →
      (inspectImage parse convert inspect ref).1.accessible = false ∧
      (inspectImage parse convert inspect ref).1.registry = RegistryType.notAccessible ∧
      (inspectImage parse convert inspect ref).1.error = str "invalid image reference: " ++ e) ∧
    (∀ ref r e, parse ref = .ok r → inspect r = .error e →
      (match convert r with
       | .error _ => True
       | .ok t => ∃ e2, inspect t = .error e2) →
      (inspectImage parse convert inspect ref).1.accessible = false ∧
      (inspectImage parse convert inspect ref).1.registry = RegistryType.notAccessible ∧
      (inspectImage parse convert inspect ref).1.error ≠ []) := by
  refine ⟨inspectImage_no_error parse convert inspect, ?_, ?_, ?_⟩
  · intro refs
    simp only [inspectImages]
    apply List.map_congr_left
    intro ref _
    have hpair : inspectImage parse convert inspect ref =
        ((inspectImage parse convert inspect ref).1, none) := by
      rw [← inspectImage_no_error parse convert inspect ref]
    rw [hpair]
  · intro ref e hp
    simp [inspectImage, hp]
  · intro ref r e hp hi hconv
    cases hc : convert r with
    | error e3 => simp [inspectImage, hp, hi, hc, str]
    | ok t =>
      rw [hc] at hconv
      obtain ⟨e2, hi2⟩ := hconv
      simp [inspectImage, hp, hi, hc, hi2, str]

/-- A reference parser that fails on one specific string. -/
def parseW : Str → Except Str ImageRef :=
  fun s => if s = str "bad ref" then .error (str "boom")
    else .ok { registry := str "registry.redhat.io", repo := str "x" }

/-- A tenant-workspace conversion that succeeds unchanged. -/
def convertW : ImageRef → Except Str ImageRef := fun r => .ok r

/-- A registry probe that always succeeds. -/
def inspectW : ImageRef → Except Str ImageInfo := fun _ => .ok default

theorem inspectImages_isolated_failures_witness :
    (inspectImage parseW convertW inspectW (str "bad ref")).1.accessible = false ∧
    (inspectImage parseW convertW inspectW (str "bad ref")).1.registry = RegistryType.notAccessible ∧
    (inspectImage parseW convertW inspectW (str "bad ref")).1.error =
      str "invalid image reference: " ++ str "boom" :=
  (inspectImages_isolated_failures parseW convertW inspectW).2.2.1 (str "bad ref")
    (str "boom") rfl

/-! ### CalculateSummary lemmas -/

theorem foldl_summStep_total (l : List ImageResult) :
    ∀ s0 : Summary, (l.foldl summStep s0).totalImages = s0.totalImages := by
  induction l with
  | nil => intro s0; rfl
  | cons r rest ih =>
    intro s0
    rw [List.foldl_cons, ih]
    simp only [summStep]
    by_cases h : r.accessible = true
    · simp only [h, if_pos]
      cases r.registry <;> rfl
    · rw [if_neg h]

theorem foldl_summStep_acc (l : List ImageResult) :
    ∀ s0 : Summary, (l.foldl summStep s0).accessibleImages =
      s0.accessibleImages + (l.filter (fun r => r.accessible)).length := by
  induction l with
  | nil => intro s0; simp
  | cons r rest ih =>
    intro s0
    rw [List.foldl_cons, ih, List.filter_cons]
    by_cases h : r.accessible = true
    · simp only [h, if_pos]
      have hstep : (summStep s0 r).accessibleImages = s0.accessibleImages + 1 := by
        simp only [summStep, h, if_pos]
        cases r.registry <;> rfl
      rw [hstep]
      simp only [List.length_cons]
      omega
    · rw [if_neg h]
      have hstep : (summStep s0 r).accessibleImages = s0.accessibleImages := by
        simp only [summStep]
        rw [if_neg h]
      rw [hstep]

theorem foldl_summStep_inacc (l : List ImageResult) :
    ∀ s0 : Summary, (l.foldl summStep s0).inaccessibleImages =
      s0.inaccessibleImages + (l.filter (fun r => !r.accessible)).length := by
  induction l with
  | nil => intro s0; simp
  | cons r rest ih =>
    intro s0
    rw [List.foldl_cons, ih, List.filter_cons]
    by_cases h : r.accessible = true
    · simp only [h, Bool.not_true]
      rw [if_neg (by simp)]
      have hstep : (summStep s0 r).inaccessibleImages = s0.inaccessibleImages := by
        simp only [summStep, h, if_pos]
        cases r.registry <;> rfl
      rw [hstep]
    · have hfalse : r.accessible = false := by simpa using h
      simp only [hfalse, Bool.not_false]
      rw [if_pos trivial]
      have hstep : (summStep s0 r).inaccessibleImages = s0.inaccessibleImages + 1 := by
        simp only [summStep, hfalse]
        rfl
      rw [hstep]
      simp only [List.length_cons]
      omega

theorem foldl_summStep_down (l : List ImageResult) :
    ∀ s0 : Summary, (l.foldl summStep s0).downstreamImages =
      s0.downstreamImages +
        (l.filter (fun r => r.accessible &&
          r.registry == RegistryType.downstreamRegistry)).length := by
  induction l with
  | nil => intro s0; simp
  | cons r rest ih =>
    intro s0
    rw [List.foldl_cons, ih, List.filter_cons]
    by_cases h : r.accessible = true
    · cases hreg : r.registry with
      | downstreamRegistry =>
        simp only [h, hreg]
        rw [if_pos (by simp)]
        have hstep : (summStep s0 r).downstreamImages = s0.downstreamImages + 1 := by
          simp only [summStep, h, if_pos, hreg]
        rw [hstep]
        simp only [List.length_cons]
        omega
      | tenantWorkspace =>
        simp only [h, hreg]
        rw [if_neg (by simp)]
        have hstep : (summStep s0 r).downstreamImages = s0.downstreamImages := by
          simp only [summStep, h, if_pos, hreg]
        rw [hstep]
      | notAccessible =>
        simp only [h, hreg]
        rw [if_neg (by simp)]
        have hstep : (summStep s0 r).downstreamImages = s0.downstreamImages := by
          simp only [summStep, h, if_pos, hreg]
        rw [hstep]
    · have hfalse : r.accessible = false := by simpa using h
      simp only [hfalse]
      rw [if_neg (by simp)]
      have hstep : (summStep s0 r).downstreamImages = s0.downstreamImages := by
        simp only [summStep, hfalse]
        rfl
      rw [hstep]

theorem foldl_summStep_tenant (l : List ImageResult) :
    ∀ s0 : Summary, (l.foldl summStep s0).tenantImages =
      s0.tenantImages +
        (l.filter (fun r => r.accessible &&
          r.registry == RegistryType.tenantWorkspace)).length := by
  induction l with
  | nil => intro s0; simp
  | cons r rest ih =>
    intro s0
    rw [List.foldl_cons, ih, List.filter_cons]
    by_cases h : r.accessible = true
    · cases hreg : r.registry with
      | downstreamRegistry =>
        simp only [h, hreg]
        rw [if_neg (by simp)]
        have hstep : (summStep s0 r).tenantImages = s0.tenantImages := by
          simp only [summStep, h, if_pos, hreg]
        rw [hstep]
      | tenantWorkspace =>
        simp only [h, hreg]
        rw [if_pos (by simp)]
        have hstep : (summStep s0 r).tenantImages = s0.tenantImages + 1 := by
          simp only [summStep, h, if_pos, hreg]
        rw [hstep]
        simp only [List.length_cons]
        omega
      | notAccessible =>
        simp only [h, hreg]
        rw [if_neg (by simp)]
        have hstep : (summStep s0 r).tenantImages = s0.tenantImages := by
          simp only [summStep, h, if_pos, hreg]
        rw [hstep]
    · have hfalse : r.accessible = false := by simpa using h
      simp only [hfalse]
      rw [if_neg (by simp)]
      have hstep : (summStep s0 r).tenantImages = s0.tenantImages := by
        simp only [summStep, hfalse]
        rfl
      rw [hstep]

theorem length_filter_split (p : ImageResult → Bool) (l : List ImageResult) :
    l.length = (l.filter p).length + (l.filter (fun r => !(p r))).length := by
  induction l with
  | nil => simp
  | cons r rest ih =>
    simp only [List.filter_cons, List.length_cons]
    by_cases h : p r = true
    · rw [if_pos h, if_neg (by simp [h])]
      simp only [List.length_cons]
      omega
    · rw [if_neg h, if_pos (by simp [h])]
      simp only [List.length_cons]
      omega

theorem down_tenant_le_acc (l : List ImageResult) :
    (l.filter (fun r => r.accessible && r.registry == RegistryType.downstreamRegistry)).length +
      (l.filter (fun r => r.accessible && r.registry == RegistryType.tenantWorkspace)).length ≤
      (l.filter (fun r => r.accessible)).length := by
  induction l with
  | nil => simp
  | cons r rest ih =>
    simp only [List.filter_cons]
    by_cases h : r.accessible = true
    · cases hreg : r.registry with
      | downstreamRegistry =>
        rw [if_pos (by simp [h, hreg]), if_neg (by simp [hreg]), if_pos (by simp [h])]
        simp only [List.length_cons]
        omega
      | tenantWorkspace =>
        rw [if_neg (by simp [hreg]), if_pos (by simp [h, hreg]), if_pos (by simp [h])]
        simp only [List.length_cons]
        omega
      | notAccessible =>
        rw [if_neg (by simp [hreg]), if_neg (by simp [hreg]), if_pos (by simp [h])]
        simp only [List.length_cons]
        omega
    · rw [if_neg (by simp [h]), if_neg (by simp [h]), if_neg (by simp [h])]
      exact ih

theorem down_tenant_eq_acc (l : List ImageResult)
    (hall : ∀ r ∈ l, r.accessible = true →
      r.registry = RegistryType.downstreamRegistry ∨ r.registry = RegistryType.tenantWorkspace) :
    (l.filter (fun r => r.accessible && r.registry == RegistryType.downstreamRegistry)).length +
      (l.filter (fun r => r.accessible && r.registry == RegistryType.tenantWorkspace)).length =
      (l.filter (fun r => r.accessible)).length := by
  induction l with
  | nil => simp
  | cons r rest ih =>
    have hrest := ih (fun q hq => hall q (List.mem_cons_of_mem r hq))
    simp only [List.filter_cons]
    by_cases h : r.accessible = true
    · cases hreg : r.registry with
      | downstreamRegistry =>
        rw [if_pos (by simp [h, hreg]), if_neg (by simp [hreg]), if_pos (by simp [h])]
        simp only [List.length_cons]
        omega
      | tenantWorkspace =>
        rw [if_neg (by simp [hreg]), if_pos (by simp [h, hreg]), if_pos (by simp [h])]
        simp only [List.length_cons]
        omega
      | notAccessible =>
        rcases hall r (List.mem_cons_self r rest) h with hd | ht
        · rw [hreg] at hd
          exact absurd hd (by simp)
        · rw [hreg] at ht
          exact absurd ht (by simp)
    · rw [if_neg (by simp [h]), if_neg (by simp [h]), if_neg (by simp [h])]
      exact hrest

/-- C10 (confirmed): `CalculateSummary` reports `TotalImages` equal to
the input length; totals split exactly into accessible plus inaccessible
results; `DownstreamImages` and `TenantImages` count only accessible
results (of the corresponding registry class), so their sum is at most
`AccessibleImages`, with equality whenever every accessible result is
classified Downstream or TenantWorkspace. -/
theorem calculateSummary_invariants (results : List ImageResult) :
    (calculateSummary results).totalImages = results.length ∧
    (calculateSummary results).totalImages =
      (calculateSummary results).accessibleImages +
        (calculateSummary results).inaccessibleImages ∧
    (calculateSummary results).downstreamImages =
      (results.filter (fun r => r.accessible &&
        r.registry == RegistryType.downstreamRegistry)).length ∧
    (calculateSummary results).tenantImages =
      (results.filter (fun r => r.accessible &&
        r.registry == RegistryType.tenantWorkspace)).length ∧
    (calculateSummary results).downstreamImages + (calculateSummary results).tenantImages ≤
      (calculateSummary results).accessibleImages ∧
    ((∀ r ∈ results, r.accessible = true →
        r.registry = RegistryType.downstreamRegistry ∨
        r.registry = RegistryType.tenantWorkspace) →
      (calculateSummary results).downstreamImages + (calculateSummary results).tenantImages =
        (calculateSummary results).accessibleImages) := by
  have htot : (calculateSummary results).totalImages = results.length := by
    rw [calculateSummary, foldl_summStep_total]
  have hacc : (calculateSummary results).accessibleImages =
      (results.filter (fun r => r.accessible)).length := by
    rw [calculateSummary, foldl_summStep_acc]
    simp
  have hinacc : (calculateSummary results).inaccessibleImages =
      (results.filter (fun r => !r.accessible)).length := by
    rw [calculateSummary, foldl_summStep_inacc]
    simp
  have hdown : (calculateSummary results).downstreamImages =
      (results.filter (fun r => r.accessible &&
        r.registry == RegistryType.downstreamRegistry)).length := by
    rw [calculateSummary, foldl_summStep_down]
    simp
  have htenant : (calculateSummary results).tenantImages =
      (results.filter (fun r => r.accessible &&
        r.registry == RegistryType.tenantWorkspace)).length := by
    rw [calculateSummary, foldl_summStep_tenant]
    simp
  refine ⟨htot, ?_, hdown, htenant, ?_, ?_⟩
  · rw [htot, hacc, hinacc]
    exact length_filter_split (fun r => r.accessible) results
  · rw [hdown, htenant, hacc]
    exact down_tenant_le_acc results
  · intro hall
    rw [hdown, htenant, hacc]
    exact down_tenant_eq_acc results hall

/-- The spec's analyzer example: a single accessible tenant-workspace
image. -/
def resultTenant : ImageResult :=
  { reference := str "a", accessible := true,
    registry := RegistryType.tenantWorkspace, error := [], info := none }

theorem calculateSummary_invariants_witness :
    (calculateSummary [resultTenant]).totalImages = 1 ∧
    (calculateSummary [resultTenant]).downstreamImages +
      (calculateSummary [resultTenant]).tenantImages =
      (calculateSummary [resultTenant]).accessibleImages :=
  ⟨(calculateSummary_invariants [resultTenant]).1,
   (calculateSummary_invariants [resultTenant]).2.2.2.2.2 (by decide)⟩
